import Mathlib

/-!
Verification of the repokit search engine and sync drift detector.

The development is a shallow embedding of src/repokit/search.py and
src/repokit/sync.py.  Text is modelled as lists of characters, the
filesystem is modelled by explicit inputs: the markdown corpus is a list
of (path, content) pairs in traversal order, the template manifests are
a function from scope name to the relative paths of its template files,
and the repository on disk is the list of relative paths that exist.
Floating point scores are modelled as exact real numbers, following the
design note of the specification that the score is a real-number
computation.  Python specifics kept by the model: list slicing with a
negative stop, truthiness of strings, and the stable sort of list.sort
(modelled by sorting index-value pairs by the total order: score
descending, then original position ascending).
-/

namespace Repokit

/-- Word characters of the source regex class a-z, A-Z, 0-9, underscore,
hyphen (WORD_RE in search.py). -/
def isWordChar (c : Char) : Bool :=
  (decide ('a' ≤ c) && decide (c ≤ 'z')) ||
  (decide ('A' ≤ c) && decide (c ≤ 'Z')) ||
  (decide ('0' ≤ c) && decide (c ≤ '9')) ||
  (c == '_') || (c == '-')

/-- ASCII lower casing, the effect of str.lower on the characters that
matter to the tokenizer (its tokens are ASCII only). -/
def pyLower (c : Char) : Char :=
  if 'A' ≤ c ∧ c ≤ 'Z' then Char.ofNat (c.toNat + 32) else c

/-- Maximal runs of word characters, the findall of WORD_RE.  The
accumulator holds the current run reversed. -/
def findRuns : List Char → List Char → List (List Char)
  | [], acc => if acc.isEmpty then [] else [acc.reverse]
  | c :: cs, acc =>
    if isWordChar c then findRuns cs (c :: acc)
    else if acc.isEmpty then findRuns cs []
    else acc.reverse :: findRuns cs []

/-- Model of the source function of the same name in search.py: findall
of the word regex, each token lower cased. -/
def _tokenize (text : List Char) : List (List Char) :=
  (findRuns text []).map (fun t => t.map pyLower)

/-- Modelled from the spec (section 4.1, claim C7): split on maximal
runs of word characters, treating every other character as a separator,
lower casing the output.  Stated with splitOnP so that it is an
independent rendering of the words of the spec, to be compared with the
source translation above. -/
def tokenizeSpec (text : List Char) : List (List Char) :=
  (((text.splitOnP fun c => !isWordChar c).filter fun r => !r.isEmpty).map
    fun t => t.map pyLower)

/-- Characters stripped by str.strip and counted as blank input. -/
def isPySpace (c : Char) : Bool :=
  (c == ' ') || (c == '\t') || (c == '\n') || (c == '\x0B') ||
  (c == '\x0C') || (c == '\r')

/-- Model of str.splitlines restricted to the common line boundaries
LF, CRLF and CR; no trailing empty line is produced. -/
def splitlines : List Char → List (List Char) :=
  go []
where
  /-- Accumulates the current line reversed. -/
  go : List Char → List Char → List (List Char)
  | acc, [] => if acc.isEmpty then [] else [acc.reverse]
  | acc, '\r' :: '\n' :: cs => acc.reverse :: go [] cs
  | acc, '\n' :: cs => acc.reverse :: go [] cs
  | acc, '\r' :: cs => acc.reverse :: go [] cs
  | acc, c :: cs => go (c :: acc) cs

/-- Boolean test that the first list is an initial segment of the
second. -/
def beginsWith : List Char → List Char → Bool
  | [], _ => true
  | _ :: _, [] => false
  | c :: t, d :: s => (c == d) && beginsWith t s

/-- Boolean test of the Python operator in for strings: the first list
occurs contiguously inside the second. -/
def hasSub (t : List Char) : List Char → Bool
  | [] => beginsWith t []
  | d :: s => beginsWith t (d :: s) || hasSub t s

/-- Score of one line in _best_line_snippet: the number of entries of
the query token list (duplicates included, as in the source, which sums
over query_tokens rather than over distinct tokens) that occur inside
the lower cased line. -/
def lineScore (qtok : List (List Char)) (line : List Char) : ℕ :=
  (qtok.filter fun t => hasSub t (line.map pyLower)).length

/-- Rendering of the words of claim C3: the same count taken over the
distinct query tokens only.  Used to compare the claim with the
source. -/
def distinctLineScore (qtok : List (List Char)) (line : List Char) : ℕ :=
  lineScore qtok.dedup line

/-- Loop of _best_line_snippet: running pair of best index and best
score, updated when a line scores strictly more; the start state is
index 0 with score minus one. -/
def bestFold : List ℤ → ℕ → ℕ × ℤ → ℕ × ℤ
  | [], _, acc => acc
  | s :: rest, idx, (bi, bs) =>
    bestFold rest (idx + 1) (if bs < s then (idx, s) else (bi, bs))

/-- Strip of leading and trailing whitespace, as str.strip. -/
def pystrip (s : List Char) : List Char :=
  ((s.dropWhile isPySpace).reverse.dropWhile isPySpace).reverse

/-- Model of _best_line_snippet in search.py: pick the first line with
the highest lineScore; with no lines, line 1 and an empty snippet; the
snippet is the chosen line stripped then cut to 200 characters. -/
def _best_line_snippet (content : List Char) (qtok : List (List Char)) :
    ℕ × List Char :=
  let lines := splitlines content
  if lines.isEmpty then (1, [])
  else
    let scores : List ℤ := lines.map fun l => (lineScore qtok l : ℤ)
    let best := bestFold scores 0 (0, -1)
    (best.1 + 1, (pystrip (lines.getD best.1 [])).take 200)

/-- Contribution of one token to the overlap: minimum of its query and
document multiplicities. -/
def tokenContribution (qtok dtok : List (List Char)) (t : List Char) : ℕ :=
  min (qtok.count t) (dtok.count t)

/-- Overlap of search.py: sum of the capped multiplicities over the
distinct tokens of the query (the items of the query Counter). -/
def overlap (qtok dtok : List (List Char)) : ℕ :=
  (qtok.dedup.map (tokenContribution qtok dtok)).sum

/-- One scored search result.  The source stores the floating score;
the model stores the integers overlap and norm it is computed from, and
derives the score from them (SearchHit.score below). -/
structure SearchHit where
  path : String
  overlap : ℕ
  norm : ℕ
  line : ℕ
  snippet : List Char
deriving DecidableEq, Repr

/-- Real valued relevance score, overlap over one plus the square root
of the document norm. -/
noncomputable def scoreOf (o n : ℕ) : ℝ :=
  (o : ℝ) / (1 + Real.sqrt n)

/-- Score of a hit as the source computes it from the document. -/
noncomputable def SearchHit.score (h : SearchHit) : ℝ :=
  scoreOf h.overlap h.norm

/-- Body of the per-file loop of search_markdown: skip a file with an
empty token multiset, skip zero overlap (the further source guard score
less or equal zero is equivalent to it, see scoreOf_pos), otherwise
build the hit. -/
def keepDoc (qtok : List (List Char)) (pc : String × List Char) :
    Option SearchHit :=
  let dtok := _tokenize pc.2
  if dtok.isEmpty then none
  else
    let ov := overlap qtok dtok
    if ov = 0 then none
    else
      let best := _best_line_snippet pc.2 qtok
      some ⟨pc.1, ov, dtok.length, best.1, best.2⟩

/-- Unsorted hit list of search_markdown, in file enumeration order:
empty for a blank query or an empty corpus, otherwise the kept files. -/
def searchHits (query : List Char) (files : List (String × List Char)) :
    List SearchHit :=
  let qtok := _tokenize query
  if qtok.isEmpty then []
  else if files.isEmpty then []
  else files.filterMap (keepDoc qtok)

/-- Decidable comparison deciding A + sqrt B less or equal C + sqrt D
over the naturals, by moving the square roots to one side and squaring;
e is C minus A and L is B minus e squared minus D. -/
def sqrtAddLeB (A B C D : ℕ) : Bool :=
  let e : ℤ := (C : ℤ) - (A : ℤ)
  let L : ℤ := (B : ℤ) - e ^ 2 - (D : ℤ)
  (decide (0 ≤ e) || decide (e ^ 2 ≤ (D : ℤ))) &&
    (if 0 ≤ e then decide (L ≤ 0) || decide (L ^ 2 ≤ 4 * e ^ 2 * (D : ℤ))
     else decide (L ≤ 0) && decide (4 * e ^ 2 * (D : ℤ) ≤ L ^ 2))

/-- Decidable comparison of the real scores of two hits; proved
equivalent to the real inequality in scoreLeB_iff. -/
def scoreLeB (a b : SearchHit) : Bool :=
  sqrtAddLeB a.overlap (a.overlap ^ 2 * b.norm) b.overlap (b.overlap ^ 2 * a.norm)

/-- Order used to model the stable descending sort of the source: on
index-hit pairs, score strictly greater first, and among equal scores
the smaller original index first.  Sorting by this total order is
exactly the stable sort of list.sort with reverse true. -/
def hitLeB (a b : ℕ × SearchHit) : Bool :=
  !(scoreLeB a.2 b.2) || (scoreLeB b.2 a.2 && decide (a.1 ≤ b.1))

/-- Propositional form of hitLeB. -/
def hitLE (a b : ℕ × SearchHit) : Prop :=
  hitLeB a b = true

instance : DecidableRel hitLE :=
  fun a b => inferInstanceAs (Decidable (hitLeB a b = true))

/-- Hits of search_markdown paired with their position in the file
enumeration order and sorted: score descending, original position
ascending among equal scores. -/
def rankedHits (query : List Char) (files : List (String × List Char)) :
    List (ℕ × SearchHit) :=
  List.insertionSort hitLE (searchHits query files).enum

/-- Python slice l up to stop: a nonnegative stop takes that many
elements, a negative stop drops that many from the end. -/
def pySlice (stop : ℤ) (l : List SearchHit) : List SearchHit :=
  l.take (if 0 ≤ stop then stop.toNat else l.length - (-stop).toNat)

/-- Model of search_markdown in search.py: tokenize the query, score
every file of the corpus, sort the hits by score descending (stable)
and slice to the limit. -/
def search_markdown (query : List Char) (files : List (String × List Char))
    (limit : ℤ) : List SearchHit :=
  pySlice limit ((rankedHits query files).map Prod.snd)

/-- Fixed repository type enumeration, REPO_TYPES of config.py. -/
def REPO_TYPES : List String :=
  ["agent", "ml", "data", "app", "automation"]

/-- Template manifest provider (external collaborator of the spec): for
a scope name, the relative paths of the template files found under that
scope, template suffix included.  A scope directory that does not exist
yields the empty list. -/
structure TemplateTree where
  files : String → List String

/-- Domain errors of sync.py, one constructor per raise site. -/
inductive SyncErr where
  | pathMissing
  | unsupportedType (t : String)
  | missingMarker
  | undetectableType
deriving DecidableEq, Repr

/-- Result of one drift analysis, SyncReport of sync.py. -/
structure SyncReport where
  repo_type : String
  missing : List String
  unexpected : List String
deriving DecidableEq, Repr

/-- Truthiness of the optional type argument: Python treats None and
the empty string alike as false. -/
def pyTruthy : Option String → Bool
  | none => false
  | some s => !(s == "")

/-- Sidecar branch of _load_repo_type: the sidecar value models the
stripped type field of .repokit.yml, none when the file is absent. -/
def _detect_type (sidecar : Option String) : Except SyncErr String :=
  match sidecar with
  | none => .error .missingMarker
  | some detected =>
    if detected ∈ REPO_TYPES then .ok detected
    else .error .undetectableType

/-- Model of _load_repo_type in sync.py: a truthy explicit type is
checked against the enumeration, otherwise the sidecar is consulted. -/
def _load_repo_type (sidecar : Option String) (repo_type : Option String) :
    Except SyncErr String :=
  if pyTruthy repo_type then
    let t := repo_type.getD ""
    if t ∈ REPO_TYPES then .ok t else .error (.unsupportedType t)
  else _detect_type sidecar

/-- Model of _expected_files in sync.py: template files of the shared
scope and of the type scope, with the three character template suffix
stripped, as a set (deduplicated list). -/
def _expected_files (tt : TemplateTree) (repo_type : String) : List String :=
  ((tt.files "_shared" ++ tt.files repo_type).map fun s => s.dropRight 3).dedup

/-- Model of _canonical_files_union in sync.py: union of the expected
sets of every known repository type. -/
def _canonical_files_union (tt : TemplateTree) : List String :=
  ((REPO_TYPES.map fun t => _expected_files tt t).flatten).dedup

/-- Lexicographic sort of path lists, the sorted builtin of Python. -/
def sortStr (l : List String) : List String :=
  List.insertionSort (· ≤ ·) l

/-- Model of analyze_sync in sync.py.  dirOk is the existence check of
the repository directory; disk is the set of relative paths that exist
under it; sidecar as in _detect_type. -/
def analyze_sync (tt : TemplateTree) (dirOk : Bool) (disk : List String)
    (sidecar : Option String) (repo_type : Option String) :
    Except SyncErr SyncReport :=
  if !dirOk then .error .pathMissing
  else
    match _load_repo_type sidecar repo_type with
    | .error e => .error e
    | .ok resolved =>
      let expected := _expected_files tt resolved
      let missing := sortStr (expected.filter fun p => !(decide (p ∈ disk)))
      let allCanonical := _canonical_files_union tt
      let unexpected := sortStr
        (((allCanonical.filter fun p => !(decide (p ∈ expected))).filter
          fun p => decide (p ∈ disk)))
      .ok ⟨resolved, missing, unexpected⟩

/-! Concrete inputs used by the witness theorems. -/

/-- Witness corpus: one markdown file. -/
def files0 : List (String × List Char) :=
  [("a.md", "hello world".toList)]

/-- Witness query. -/
def q0 : List Char := "hello".toList

/-- Hit produced for q0 on files0. -/
def h0 : SearchHit :=
  ⟨"a.md", 1, 2, 1, "hello world".toList⟩

/-- Witness corpus with two equally scored files. -/
def filesX : List (String × List Char) :=
  [("a.md", "x".toList), ("b.md", "x".toList)]

/-- Witness template tree: one shared template, one template for agent,
one for ml. -/
def tt0 : TemplateTree :=
  ⟨fun s =>
    if s = "_shared" then ["README.md.j2"]
    else if s = "agent" then ["AGENTS.md.j2"]
    else if s = "ml" then ["MODEL_CARD.md.j2"]
    else []⟩

/-- Witness repository contents on disk. -/
def disk0 : List String :=
  ["README.md", "MODEL_CARD.md"]

/-- Report of analyze_sync on tt0, disk0 with type agent. -/
def r0 : SyncReport :=
  ⟨"agent", ["AGENTS.md"], ["MODEL_CARD.md"]⟩

/-! Correctness of the decidable square root comparison. -/

theorem linear_le_sqrt_iff (K c d : ℝ) (hc : 0 ≤ c) (hd : 0 ≤ d) :
    K ≤ c * Real.sqrt d ↔ K ≤ 0 ∨ K ^ 2 ≤ c ^ 2 * d := by
  have hcd : c * Real.sqrt d = Real.sqrt (c ^ 2 * d) := by
    rw [Real.sqrt_mul (sq_nonneg c), Real.sqrt_sq hc]
  rw [hcd]
  constructor
  · intro h
    rcases le_or_lt K 0 with hK | hK
    · exact Or.inl hK
    · refine Or.inr ?_
      have h2 := pow_le_pow_left₀ hK.le h 2
      rwa [Real.sq_sqrt (by positivity)] at h2
  · rintro (h | h)
    · exact h.trans (Real.sqrt_nonneg _)
    · rcases le_or_lt K 0 with hK | hK
      · exact hK.trans (Real.sqrt_nonneg _)
      · exact (Real.le_sqrt hK.le (by positivity)).mpr h

theorem sqrt_le_linear_iff (K c d : ℝ) (hc : 0 ≤ c) :
    c * Real.sqrt d ≤ K ↔ 0 ≤ K ∧ c ^ 2 * d ≤ K ^ 2 := by
  have hcd : c * Real.sqrt d = Real.sqrt (c ^ 2 * d) := by
    rw [Real.sqrt_mul (sq_nonneg c), Real.sqrt_sq hc]
  rw [hcd, Real.sqrt_le_iff]

theorem sqrtAddLeB_iff (A B C D : ℕ) :
    sqrtAddLeB A B C D = true ↔
      (A : ℝ) + Real.sqrt B ≤ (C : ℝ) + Real.sqrt D := by
  have hDnn : (0 : ℝ) ≤ (D : ℝ) := Nat.cast_nonneg D
  have hsqD := Real.sqrt_nonneg (D : ℝ)
  have hsqDsq : Real.sqrt (D : ℝ) ^ 2 = (D : ℝ) := Real.sq_sqrt hDnn
  have expand : (((C : ℝ) - A) + Real.sqrt D) ^ 2 =
      ((C : ℝ) - A) ^ 2 + 2 * ((C : ℝ) - A) * Real.sqrt D + (D : ℝ) := by
    rw [add_sq, hsqDsq]
  have key : ((A : ℝ) + Real.sqrt B ≤ (C : ℝ) + Real.sqrt D) ↔
      (0 ≤ ((C : ℝ) - A) + Real.sqrt D ∧
        (B : ℝ) - ((C : ℝ) - A) ^ 2 - D ≤ (2 * ((C : ℝ) - A)) * Real.sqrt D) := by
    have h1 : ((A : ℝ) + Real.sqrt B ≤ (C : ℝ) + Real.sqrt D) ↔
        Real.sqrt B ≤ ((C : ℝ) - A) + Real.sqrt D := by
      constructor <;> intro h <;> linarith
    rw [h1, Real.sqrt_le_iff]
    constructor
    · rintro ⟨hpos, hle⟩
      rw [expand] at hle
      exact ⟨hpos, by linarith⟩
    · rintro ⟨hpos, hle⟩
      refine ⟨hpos, ?_⟩
      rw [expand]
      linarith
  rw [key]
  have hLcast : (((B : ℤ) - ((C : ℤ) - (A : ℤ)) ^ 2 - (D : ℤ) : ℤ) : ℝ) =
      (B : ℝ) - ((C : ℝ) - A) ^ 2 - (D : ℝ) := by push_cast; ring
  by_cases he0 : (0 : ℤ) ≤ (C : ℤ) - (A : ℤ)
  · have hx : (0 : ℝ) ≤ (C : ℝ) - A := by exact_mod_cast he0
    simp only [sqrtAddLeB, he0, if_true, decide_eq_true_eq, decide_True,
      Bool.true_or, Bool.true_and, Bool.or_eq_true]
    have hfirst : 0 ≤ ((C : ℝ) - A) + Real.sqrt D := by linarith
    rw [linear_le_sqrt_iff _ _ _ (by linarith) hDnn]
    constructor
    · rintro (h | h)
      · refine ⟨hfirst, Or.inl ?_⟩
        rw [← hLcast]
        exact_mod_cast h
      · refine ⟨hfirst, Or.inr ?_⟩
        have hcast : ((((B : ℤ) - ((C : ℤ) - (A : ℤ)) ^ 2 - (D : ℤ)) ^ 2 : ℤ) : ℝ) ≤
            ((4 * ((C : ℤ) - (A : ℤ)) ^ 2 * (D : ℤ) : ℤ) : ℝ) := by exact_mod_cast h
        rw [show (((((B : ℤ) - ((C : ℤ) - (A : ℤ)) ^ 2 - (D : ℤ)) ^ 2 : ℤ)) : ℝ) =
            (((B : ℤ) - ((C : ℤ) - (A : ℤ)) ^ 2 - (D : ℤ) : ℤ) : ℝ) ^ 2 by push_cast; ring,
          hLcast] at hcast
        calc ((B : ℝ) - ((C : ℝ) - A) ^ 2 - D) ^ 2
            ≤ ((4 * ((C : ℤ) - (A : ℤ)) ^ 2 * (D : ℤ) : ℤ) : ℝ) := hcast
          _ = (2 * ((C : ℝ) - A)) ^ 2 * D := by push_cast; ring
    · rintro ⟨-, h | h⟩
      · refine Or.inl ?_
        rw [← hLcast] at h
        exact_mod_cast h
      · refine Or.inr ?_
        have h2 : (((B : ℤ) - ((C : ℤ) - (A : ℤ)) ^ 2 - (D : ℤ) : ℤ) : ℝ) ^ 2 ≤
            ((4 * ((C : ℤ) - (A : ℤ)) ^ 2 * (D : ℤ) : ℤ) : ℝ) := by
          rw [hLcast]
          calc ((B : ℝ) - ((C : ℝ) - A) ^ 2 - D) ^ 2
              ≤ (2 * ((C : ℝ) - A)) ^ 2 * D := h
            _ = ((4 * ((C : ℤ) - (A : ℤ)) ^ 2 * (D : ℤ) : ℤ) : ℝ) := by push_cast; ring
        have h3 : ((((B : ℤ) - ((C : ℤ) - (A : ℤ)) ^ 2 - (D : ℤ)) ^ 2 : ℤ) : ℝ) ≤
            ((4 * ((C : ℤ) - (A : ℤ)) ^ 2 * (D : ℤ) : ℤ) : ℝ) := by
          rw [show (((((B : ℤ) - ((C : ℤ) - (A : ℤ)) ^ 2 - (D : ℤ)) ^ 2 : ℤ)) : ℝ) =
            (((B : ℤ) - ((C : ℤ) - (A : ℤ)) ^ 2 - (D : ℤ) : ℤ) : ℝ) ^ 2 by push_cast; ring]
          exact h2
        exact_mod_cast h3
  · have hx : (C : ℝ) - A < 0 := by
      have : ((C : ℤ) - (A : ℤ) : ℤ) < 0 := by omega
      calc (C : ℝ) - A = (((C : ℤ) - (A : ℤ) : ℤ) : ℝ) := by push_cast; ring
        _ < 0 := by exact_mod_cast this
    simp only [sqrtAddLeB, he0, if_false, decide_eq_true_eq, decide_False,
      Bool.false_or, Bool.and_eq_true]
    have hsecond : ((B : ℝ) - ((C : ℝ) - A) ^ 2 - D ≤ (2 * ((C : ℝ) - A)) * Real.sqrt D) ↔
        ((- (2 * ((C : ℝ) - A))) * Real.sqrt D ≤ - ((B : ℝ) - ((C : ℝ) - A) ^ 2 - D)) := by
      constructor <;> intro h <;> linarith
    rw [hsecond]
    rw [sqrt_le_linear_iff _ _ _ (by linarith)]
    have hneg : (0 ≤ ((C : ℝ) - A) + Real.sqrt D) ↔ (- ((C : ℝ) - A)) ≤ Real.sqrt D := by
      constructor <;> intro h <;> linarith
    rw [hneg]
    have hone : (- ((C : ℝ) - A)) ≤ Real.sqrt D ↔
        (- ((C : ℝ) - A)) ≤ 1 * Real.sqrt D := by rw [one_mul]
    rw [hone, linear_le_sqrt_iff _ _ _ zero_le_one hDnn]
    constructor
    · rintro ⟨hsq, hL0, hLsq⟩
      have hsqR : ((C : ℝ) - A) ^ 2 ≤ (D : ℝ) := by
        have : ((((C : ℤ) - (A : ℤ)) ^ 2 : ℤ) : ℝ) ≤ ((D : ℤ) : ℝ) := by exact_mod_cast hsq
        calc ((C : ℝ) - A) ^ 2 = ((((C : ℤ) - (A : ℤ)) ^ 2 : ℤ) : ℝ) := by push_cast; ring
          _ ≤ ((D : ℤ) : ℝ) := this
          _ = (D : ℝ) := by push_cast; ring
      refine ⟨Or.inr (by nlinarith), ?_, ?_⟩
      · have : (((B : ℤ) - ((C : ℤ) - (A : ℤ)) ^ 2 - (D : ℤ) : ℤ) : ℝ) ≤ 0 := by
          exact_mod_cast hL0
        rw [hLcast] at this
        linarith
      · have h4 : ((4 * ((C : ℤ) - (A : ℤ)) ^ 2 * (D : ℤ) : ℤ) : ℝ) ≤
            ((((B : ℤ) - ((C : ℤ) - (A : ℤ)) ^ 2 - (D : ℤ)) ^ 2 : ℤ) : ℝ) := by
          exact_mod_cast hLsq
        calc (- (2 * ((C : ℝ) - A))) ^ 2 * D
            = ((4 * ((C : ℤ) - (A : ℤ)) ^ 2 * (D : ℤ) : ℤ) : ℝ) := by push_cast; ring
          _ ≤ ((((B : ℤ) - ((C : ℤ) - (A : ℤ)) ^ 2 - (D : ℤ)) ^ 2 : ℤ) : ℝ) := h4
          _ = (- ((B : ℝ) - ((C : ℝ) - A) ^ 2 - D)) ^ 2 := by push_cast; ring
    · rintro ⟨hd1, hL0, hLsq⟩
      have hsqR : ((C : ℝ) - A) ^ 2 ≤ (D : ℝ) := by
        rcases hd1 with hd1 | hd1
        · nlinarith
        · nlinarith
      refine ⟨?_, ?_, ?_⟩
      · have hstep : ((((C : ℤ) - (A : ℤ)) ^ 2 : ℤ) : ℝ) ≤ ((D : ℤ) : ℝ) := by
          calc ((((C : ℤ) - (A : ℤ)) ^ 2 : ℤ) : ℝ)
              = ((C : ℝ) - A) ^ 2 := by push_cast; ring
            _ ≤ (D : ℝ) := hsqR
            _ = ((D : ℤ) : ℝ) := by push_cast; ring
        exact_mod_cast hstep
      · have : (((B : ℤ) - ((C : ℤ) - (A : ℤ)) ^ 2 - (D : ℤ) : ℤ) : ℝ) ≤ 0 := by
          rw [hLcast]; linarith
        exact_mod_cast this
      · have h4 : ((4 * ((C : ℤ) - (A : ℤ)) ^ 2 * (D : ℤ) : ℤ) : ℝ) ≤
            ((((B : ℤ) - ((C : ℤ) - (A : ℤ)) ^ 2 - (D : ℤ)) ^ 2 : ℤ) : ℝ) := by
          calc ((4 * ((C : ℤ) - (A : ℤ)) ^ 2 * (D : ℤ) : ℤ) : ℝ)
              = (- (2 * ((C : ℝ) - A))) ^ 2 * D := by push_cast; ring
            _ ≤ (- ((B : ℝ) - ((C : ℝ) - A) ^ 2 - D)) ^ 2 := hLsq
            _ = ((((B : ℤ) - ((C : ℤ) - (A : ℤ)) ^ 2 - (D : ℤ)) ^ 2 : ℤ) : ℝ) := by
                push_cast; ring
        exact_mod_cast h4

/-! Score order facts. -/

theorem scoreOf_pos (o n : ℕ) (ho : 0 < o) : 0 < scoreOf o n := by
  rw [scoreOf]
  exact div_pos (by exact_mod_cast ho) (by positivity)

theorem scoreLeB_iff (a b : SearchHit) :
    scoreLeB a b = true ↔ a.score ≤ b.score := by
  have d1 : (0 : ℝ) < 1 + Real.sqrt (a.norm : ℝ) := by positivity
  have d2 : (0 : ℝ) < 1 + Real.sqrt (b.norm : ℝ) := by positivity
  have c1 : Real.sqrt ((a.overlap ^ 2 * b.norm : ℕ) : ℝ) =
      (a.overlap : ℝ) * Real.sqrt (b.norm : ℝ) := by
    push_cast
    rw [Real.sqrt_mul (by positivity) _, Real.sqrt_sq (by positivity)]
  have c2 : Real.sqrt ((b.overlap ^ 2 * a.norm : ℕ) : ℝ) =
      (b.overlap : ℝ) * Real.sqrt (a.norm : ℝ) := by
    push_cast
    rw [Real.sqrt_mul (by positivity) _, Real.sqrt_sq (by positivity)]
  unfold scoreLeB
  rw [sqrtAddLeB_iff, c1, c2, SearchHit.score, SearchHit.score, scoreOf, scoreOf,
    div_le_div_iff₀ d1 d2]
  constructor <;> intro h <;> ring_nf at h ⊢ <;> linarith

theorem hitLE_iff (a b : ℕ × SearchHit) :
    hitLE a b ↔
      b.2.score < a.2.score ∨ (a.2.score = b.2.score ∧ a.1 ≤ b.1) := by
  unfold hitLE hitLeB
  rw [Bool.or_eq_true, Bool.and_eq_true, Bool.not_eq_true', decide_eq_true_eq]
  constructor
  · rintro (h | ⟨h1, h2⟩)
    · left
      have hn : ¬ (a.2.score ≤ b.2.score) := by
        rw [← scoreLeB_iff]
        simp [h]
      exact not_le.mp hn
    · have hba : b.2.score ≤ a.2.score := (scoreLeB_iff b.2 a.2).mp h1
      rcases hba.lt_or_eq with h | h
      · exact Or.inl h
      · exact Or.inr ⟨h.symm, h2⟩
  · rintro (h | ⟨h1, h2⟩)
    · left
      have hn : ¬ (a.2.score ≤ b.2.score) := not_le.mpr h
      rw [← scoreLeB_iff] at hn
      simpa using hn
    · exact Or.inr ⟨(scoreLeB_iff b.2 a.2).mpr h1.ge, h2⟩

instance : IsTrans (ℕ × SearchHit) hitLE := ⟨by
  intro a b c hab hbc
  rw [hitLE_iff] at hab hbc ⊢
  rcases hab with h1 | ⟨h1, h1i⟩ <;> rcases hbc with h2 | ⟨h2, h2i⟩
  · exact Or.inl (h2.trans h1)
  · exact Or.inl (h2 ▸ h1)
  · exact Or.inl (h1 ▸ h2)
  · exact Or.inr ⟨h1.trans h2, le_trans h1i h2i⟩⟩

instance : IsTotal (ℕ × SearchHit) hitLE := ⟨by
  intro a b
  rw [hitLE_iff, hitLE_iff]
  rcases lt_trichotomy a.2.score b.2.score with h | h | h
  · exact Or.inr (Or.inl h)
  · rcases Nat.le_total a.1 b.1 with hi | hi
    · exact Or.inl (Or.inr ⟨h, hi⟩)
    · exact Or.inr (Or.inr ⟨h.symm, hi⟩)
  · exact Or.inl (Or.inl h)⟩

/-! Elimination helpers for membership in the search result. -/

theorem keepDoc_some {qtok : List (List Char)} {pc : String × List Char}
    {h : SearchHit} (he : keepDoc qtok pc = some h) :
    h.path = pc.1 ∧ h.overlap = overlap qtok (_tokenize pc.2) ∧
    h.norm = (_tokenize pc.2).length ∧
    h.line = (_best_line_snippet pc.2 qtok).1 ∧
    h.snippet = (_best_line_snippet pc.2 qtok).2 ∧
    _tokenize pc.2 ≠ [] ∧ overlap qtok (_tokenize pc.2) ≠ 0 := by
  unfold keepDoc at he
  simp only at he
  split_ifs at he with h1 h2
  obtain rfl := Option.some.inj he
  refine ⟨rfl, rfl, rfl, rfl, rfl, ?_, h2⟩
  intro hnil
  rw [← List.isEmpty_iff] at hnil
  exact absurd hnil (by simpa using h1)

theorem mem_searchHits {query : List Char} {files : List (String × List Char)}
    {h : SearchHit} (hm : h ∈ searchHits query files) :
    ∃ pc ∈ files, keepDoc (_tokenize query) pc = some h := by
  unfold searchHits at hm
  simp only at hm
  split_ifs at hm with h1 h2
  · exact absurd hm (by simp)
  · exact absurd hm (by simp)
  · obtain ⟨pc, hpc, he⟩ := List.mem_filterMap.mp hm
    exact ⟨pc, hpc, he⟩

theorem mem_ranked_enum {query : List Char} {files : List (String × List Char)}
    {p : ℕ × SearchHit} (hp : p ∈ rankedHits query files) :
    (searchHits query files)[p.1]? = some p.2 := by
  unfold rankedHits at hp
  have hperm := List.perm_insertionSort hitLE (searchHits query files).enum
  exact List.mem_enum_iff_getElem?.mp (hperm.subset hp)

theorem mem_search {query : List Char} {files : List (String × List Char)}
    {limit : ℤ} {h : SearchHit} (hm : h ∈ search_markdown query files limit) :
    ∃ pc ∈ files, keepDoc (_tokenize query) pc = some h := by
  unfold search_markdown pySlice at hm
  have h1 : h ∈ (rankedHits query files).map Prod.snd := List.mem_of_mem_take hm
  obtain ⟨p, hp, hps⟩ := List.mem_map.mp h1
  have h2 := mem_ranked_enum hp
  have h3 : p.2 ∈ searchHits query files := List.getElem?_mem h2
  rw [hps] at h3
  exact mem_searchHits h3

/-! Argmax property of the best line loop. -/

theorem bestFold_spec (l : List ℤ) : ∀ (idx bi : ℕ) (bs : ℤ),
    (bestFold l idx (bi, bs) = (bi, bs) ∧ ∀ k, k < l.length → l.getD k 0 ≤ bs)
    ∨ (∃ k, k < l.length ∧ bestFold l idx (bi, bs) = (idx + k, l.getD k 0) ∧
        bs < l.getD k 0 ∧
        (∀ j, j < l.length → l.getD j 0 ≤ l.getD k 0) ∧
        (∀ j, j < k → l.getD j 0 < l.getD k 0)) := by
  induction l with
  | nil =>
    intro idx bi bs
    exact Or.inl ⟨rfl, by simp⟩
  | cons s rest ih =>
    intro idx bi bs
    rw [bestFold]
    by_cases hbs : bs < s
    · rw [if_pos hbs]
      rcases ih (idx + 1) idx s with ⟨heq, hall⟩ | ⟨k, hk, heq, hlt, hall, hstrict⟩
      · refine Or.inr ⟨0, by simp, ?_, by simpa using hbs, ?_, ?_⟩
        · rw [heq, List.getD_cons_zero, Nat.add_zero]
        · intro j hj
          cases j with
          | zero => simp
          | succ j =>
            rw [List.getD_cons_succ]
            exact hall j (by simpa using hj)
        · intro j hj
          exact absurd hj (Nat.not_lt_zero j)
      · refine Or.inr ⟨k + 1, by simpa using hk, ?_, ?_, ?_, ?_⟩
        · have harith : idx + 1 + k = idx + (k + 1) := by omega
          rw [heq, List.getD_cons_succ, ← harith]
        · rw [List.getD_cons_succ]
          exact lt_trans hbs hlt
        · intro j hj
          cases j with
          | zero =>
            rw [List.getD_cons_zero, List.getD_cons_succ]
            exact le_of_lt hlt
          | succ j =>
            rw [List.getD_cons_succ, List.getD_cons_succ]
            exact hall j (by simpa using hj)
        · intro j hj
          cases j with
          | zero =>
            rw [List.getD_cons_zero, List.getD_cons_succ]
            exact hlt
          | succ j =>
            rw [List.getD_cons_succ, List.getD_cons_succ]
            exact hstrict j (by omega)
    · rw [if_neg hbs]
      have hsle : s ≤ bs := not_lt.mp hbs
      rcases ih (idx + 1) bi bs with ⟨heq, hall⟩ | ⟨k, hk, heq, hlt, hall, hstrict⟩
      · refine Or.inl ⟨heq, ?_⟩
        intro k hklen
        cases k with
        | zero => simpa using hsle
        | succ k =>
          rw [List.getD_cons_succ]
          exact hall k (by simpa using hklen)
      · refine Or.inr ⟨k + 1, by simpa using hk, ?_, ?_, ?_, ?_⟩
        · have harith : idx + 1 + k = idx + (k + 1) := by omega
          rw [heq, List.getD_cons_succ, ← harith]
        · rw [List.getD_cons_succ]
          exact hlt
        · intro j hj
          cases j with
          | zero =>
            rw [List.getD_cons_zero, List.getD_cons_succ]
            exact le_of_lt (hsle.trans_lt hlt)
          | succ j =>
            rw [List.getD_cons_succ, List.getD_cons_succ]
            exact hall j (by simpa using hj)
        · intro j hj
          cases j with
          | zero =>
            rw [List.getD_cons_zero, List.getD_cons_succ]
            exact hsle.trans_lt hlt
          | succ j =>
            rw [List.getD_cons_succ, List.getD_cons_succ]
            exact hstrict j (by omega)

theorem best_line_spec (content : List Char) (qtok : List (List Char))
    (hne : splitlines content ≠ []) :
    ∃ i, i < (splitlines content).length ∧
      _best_line_snippet content qtok =
        (i + 1, (pystrip ((splitlines content).getD i [])).take 200) ∧
      (∀ j, j < (splitlines content).length →
        lineScore qtok ((splitlines content).getD j []) ≤
          lineScore qtok ((splitlines content).getD i [])) ∧
      (∀ j, j < i →
        lineScore qtok ((splitlines content).getD j []) <
          lineScore qtok ((splitlines content).getD i [])) := by
  have hlen : 0 < (splitlines content).length := List.length_pos.mpr hne
  have bridge : ∀ j, j < (splitlines content).length →
      ((splitlines content).map fun l => (lineScore qtok l : ℤ)).getD j 0 =
        (lineScore qtok ((splitlines content).getD j []) : ℤ) := by
    intro j hj
    rw [List.getD_eq_getElem _ _ (by simpa using hj), List.getElem_map,
      List.getD_eq_getElem _ _ hj]
  have hnotempty : ¬ ((splitlines content).isEmpty = true) := by
    simpa [List.isEmpty_iff] using hne
  rcases bestFold_spec ((splitlines content).map fun l => (lineScore qtok l : ℤ))
      0 0 (-1) with ⟨heq, hall⟩ | ⟨k, hk, heq, hlt, hall, hstrict⟩
  · exfalso
    have h0 := hall 0 (by simpa using hlen)
    rw [bridge 0 hlen] at h0
    have : (0 : ℤ) ≤ (lineScore qtok ((splitlines content).getD 0 []) : ℤ) :=
      Int.natCast_nonneg _
    linarith
  · have hk' : k < (splitlines content).length := by simpa using hk
    refine ⟨k, hk', ?_, ?_, ?_⟩
    · simp only [_best_line_snippet]
      rw [if_neg hnotempty, heq, Nat.zero_add]
    · intro j hj
      have hint := hall j (by simpa using hj)
      rw [bridge j hj, bridge k hk'] at hint
      exact_mod_cast hint
    · intro j hj
      have hint := hstrict j hj
      rw [bridge j (lt_trans hj hk'), bridge k hk'] at hint
      exact_mod_cast hint

/-- Claim C1: for every hit kept by search_markdown, the score equals
overlap over one plus the square root of the document norm, where the
overlap sums the capped multiplicities over the distinct query tokens
and the norm is the total token count of the document; a token of query
multiplicity two and document multiplicity one contributes exactly one. -/
theorem c1_score_formula {query : List Char} {files : List (String × List Char)}
    {limit : ℤ} {h : SearchHit} (hm : h ∈ search_markdown query files limit) :
    ∃ pc ∈ files, h.path = pc.1 ∧
      h.score = (overlap (_tokenize query) (_tokenize pc.2) : ℝ) /
        (1 + Real.sqrt ((_tokenize pc.2).length : ℝ)) ∧
      ∀ t : List Char, (_tokenize query).count t = 2 →
        (_tokenize pc.2).count t = 1 →
        tokenContribution (_tokenize query) (_tokenize pc.2) t = 1 := by
  obtain ⟨pc, hpc, he⟩ := mem_search hm
  obtain ⟨hp, ho, hn, -, -, -, -⟩ := keepDoc_some he
  refine ⟨pc, hpc, hp, ?_, ?_⟩
  · rw [SearchHit.score, ho, hn, scoreOf]
  · intro t hq hd
    rw [tokenContribution, hq, hd]
    decide

/-- Witness for C1 on the concrete corpus files0. -/
theorem c1_score_formula_witness :
    h0 ∈ search_markdown q0 files0 10 ∧
    ∃ pc ∈ files0, h0.path = pc.1 ∧
      h0.score = (overlap (_tokenize q0) (_tokenize pc.2) : ℝ) /
        (1 + Real.sqrt ((_tokenize pc.2).length : ℝ)) ∧
      ∀ t : List Char, (_tokenize q0).count t = 2 →
        (_tokenize pc.2).count t = 1 →
        tokenContribution (_tokenize q0) (_tokenize pc.2) t = 1 :=
  ⟨by decide, @c1_score_formula q0 files0 10 h0 (by decide)⟩

/-- Claim C6: every returned hit has a strictly positive score; no hit
comes from an empty document token multiset or a zero overlap. -/
theorem c6_score_positive {query : List Char} {files : List (String × List Char)}
    {limit : ℤ} {h : SearchHit} (hm : h ∈ search_markdown query files limit) :
    0 < h.score ∧ h.overlap ≠ 0 ∧ h.norm ≠ 0 := by
  obtain ⟨pc, hpc, he⟩ := mem_search hm
  obtain ⟨-, ho, hn, -, -, hne, hov⟩ := keepDoc_some he
  have hopos : 0 < h.overlap := by
    rw [ho]
    exact Nat.pos_of_ne_zero hov
  refine ⟨scoreOf_pos _ _ hopos, ?_, ?_⟩
  · rw [ho]
    exact hov
  · rw [hn]
    intro hlen
    exact hne (List.length_eq_zero.mp hlen)

/-- Witness for C6 on the concrete corpus files0. -/
theorem c6_score_positive_witness :
    0 < h0.score ∧ h0.overlap ≠ 0 ∧ h0.norm ≠ 0 :=
  @c6_score_positive q0 files0 10 h0 (by decide)

/-- Claim C3 as amended: the hit line is the earliest line whose count
of query token list entries (with multiplicity, as the source sums over
query_tokens) occurring in the lower cased line is maximal; a file with
no lines gives line 1 and an empty snippet; the snippet is the chosen
line stripped and cut to 200 characters.  The claim said distinct
tokens; the counterexample below shows the source counts duplicates. -/
theorem c3_best_line {query : List Char} {files : List (String × List Char)}
    {limit : ℤ} {h : SearchHit} (hm : h ∈ search_markdown query files limit) :
    ∃ pc ∈ files, h.path = pc.1 ∧
      (splitlines pc.2 = [] → h.line = 1 ∧ h.snippet = []) ∧
      (splitlines pc.2 ≠ [] → ∃ i, i < (splitlines pc.2).length ∧
        h.line = i + 1 ∧
        h.snippet = (pystrip ((splitlines pc.2).getD i [])).take 200 ∧
        (∀ j, j < (splitlines pc.2).length →
          lineScore (_tokenize query) ((splitlines pc.2).getD j []) ≤
            lineScore (_tokenize query) ((splitlines pc.2).getD i [])) ∧
        (∀ j, j < i →
          lineScore (_tokenize query) ((splitlines pc.2).getD j []) <
            lineScore (_tokenize query) ((splitlines pc.2).getD i []))) := by
  obtain ⟨pc, hpc, he⟩ := mem_search hm
  obtain ⟨hp, -, -, hline, hsnip, -, -⟩ := keepDoc_some he
  refine ⟨pc, hpc, hp, ?_, ?_⟩
  · intro hnil
    have hempty : (splitlines pc.2).isEmpty = true := by
      rw [List.isEmpty_iff]
      exact hnil
    constructor
    · rw [hline]
      simp only [_best_line_snippet, hempty, if_pos]
    · rw [hsnip]
      simp only [_best_line_snippet, hempty, if_pos]
  · intro hne
    obtain ⟨i, hi, heq, hall, hstrict⟩ := best_line_spec pc.2 (_tokenize query) hne
    refine ⟨i, hi, ?_, ?_, hall, hstrict⟩
    · rw [hline, heq]
    · rw [hsnip, heq]

/-- Witness for C3 on the concrete corpus files0. -/
theorem c3_best_line_witness :
    h0 ∈ search_markdown q0 files0 10 ∧
    ∃ pc ∈ files0, h0.path = pc.1 ∧
      (splitlines pc.2 = [] → h0.line = 1 ∧ h0.snippet = []) ∧
      (splitlines pc.2 ≠ [] → ∃ i, i < (splitlines pc.2).length ∧
        h0.line = i + 1 ∧
        h0.snippet = (pystrip ((splitlines pc.2).getD i [])).take 200 ∧
        (∀ j, j < (splitlines pc.2).length →
          lineScore (_tokenize q0) ((splitlines pc.2).getD j []) ≤
            lineScore (_tokenize q0) ((splitlines pc.2).getD i [])) ∧
        (∀ j, j < i →
          lineScore (_tokenize q0) ((splitlines pc.2).getD j []) <
            lineScore (_tokenize q0) ((splitlines pc.2).getD i []))) :=
  ⟨by decide, @c3_best_line q0 files0 10 h0 (by decide)⟩

/-- Counterexample to claim C3 as stated: for the query x x y z on a
file with lines x and y z, the hit has line 1 and snippet x (the source
counts the duplicated token x twice, giving both lines line count 2 and
keeping the earlier), although line 2 contains strictly more distinct
query tokens than line 1, so the chosen line does not maximise the
distinct token count. -/
theorem c3_counterexample :
    (search_markdown ("x x y z".toList) [("f.md", "x\ny z".toList)] 10).map
        (fun h => (h.line, h.snippet)) = [(1, "x".toList)] ∧
    splitlines "x\ny z".toList = ["x".toList, "y z".toList] ∧
    distinctLineScore (_tokenize "x x y z".toList) "x".toList <
      distinctLineScore (_tokenize "x x y z".toList) "y z".toList :=
  ⟨by decide, by decide, by decide⟩

/-- Claim C4 as amended: the result length is bounded by every
nonnegative limit, and limit zero gives the empty result.  The claim
said every limit less or equal zero gives the empty result, which fails
for negative limits by Python slice semantics, see the counterexample. -/
theorem c4_limit_respected (query : List Char) (files : List (String × List Char))
    (limit : ℤ) :
    (0 ≤ limit → ((search_markdown query files limit).length : ℤ) ≤ limit) ∧
    (limit = 0 → search_markdown query files limit = []) := by
  constructor
  · intro hl
    unfold search_markdown pySlice
    rw [if_pos hl]
    have hlen := List.length_take_le limit.toNat
      ((rankedHits query files).map Prod.snd)
    calc ((((rankedHits query files).map Prod.snd).take limit.toNat).length : ℤ)
        ≤ (limit.toNat : ℤ) := by exact_mod_cast hlen
      _ = limit := Int.toNat_of_nonneg hl
  · intro hl
    subst hl
    unfold search_markdown pySlice
    simp

/-- Witness for C4 at limit 10 on the concrete corpus files0. -/
theorem c4_limit_respected_witness :
    (0 : ℤ) ≤ 10 ∧ ((search_markdown q0 files0 10).length : ℤ) ≤ 10 :=
  ⟨by decide, (c4_limit_respected q0 files0 10).1 (by decide)⟩

/-- Counterexample to claim C4 as stated: with two equally scored files
and limit minus one, the Python slice drops only the last hit, so the
result is nonempty and its length is not bounded by the limit. -/
theorem c4_counterexample :
    (-1 : ℤ) ≤ 0 ∧ search_markdown ("x".toList) filesX (-1) ≠ [] ∧
    ¬ (((search_markdown ("x".toList) filesX (-1)).length : ℤ) ≤ (-1 : ℤ)) :=
  ⟨by decide, by decide, by decide⟩

/-- Claim C5: consecutive hits of a result list have descending scores,
and among equal scores the original enumeration order is preserved: the
ranked list pairs every hit with its position in the unsorted hit list
(which is in file enumeration order), equal score neighbours keep
strictly increasing positions, every recorded position indexes the hit
it carries, and the result is the slice of the ranked list. -/
theorem c5_ranking (query : List Char) (files : List (String × List Char))
    (limit : ℤ) :
    List.Chain' (fun a b : SearchHit => b.score ≤ a.score)
      (search_markdown query files limit) ∧
    List.Pairwise (fun a b : ℕ × SearchHit => a.2.score = b.2.score → a.1 < b.1)
      (rankedHits query files) ∧
    (∀ p ∈ rankedHits query files, (searchHits query files)[p.1]? = some p.2) ∧
    search_markdown query files limit =
      pySlice limit ((rankedHits query files).map Prod.snd) := by
  have hsorted : List.Pairwise hitLE (rankedHits query files) :=
    List.sorted_insertionSort hitLE _
  have hperm : List.Perm (rankedHits query files) ((searchHits query files).enum) :=
    List.perm_insertionSort hitLE _
  have hp1 : List.Pairwise (fun a b : ℕ × SearchHit => b.2.score ≤ a.2.score)
      (rankedHits query files) := by
    refine hsorted.imp ?_
    intro a b hab
    rcases (hitLE_iff a b).mp hab with hlt | ⟨heq, -⟩
    · exact le_of_lt hlt
    · exact le_of_eq heq.symm
  have hp2 : List.Pairwise (fun a b : SearchHit => b.score ≤ a.score)
      ((rankedHits query files).map Prod.snd) := by
    rw [List.pairwise_map]
    exact hp1
  refine ⟨?_, ?_, ?_, rfl⟩
  · show List.Chain' _ (pySlice limit ((rankedHits query files).map Prod.snd))
    unfold pySlice
    exact (hp2.sublist (List.take_sublist _ _)).chain'
  · have h1 : ((searchHits query files).enum.map Prod.fst).Nodup :=
      List.nodup_enum_map_fst _
    have h2 : ((rankedHits query files).map Prod.fst).Nodup :=
      ((hperm.map Prod.fst).nodup_iff).mpr h1
    have hnodup : List.Pairwise (fun a b : ℕ × SearchHit => a.1 ≠ b.1)
        (rankedHits query files) := List.pairwise_map.mp h2
    refine (hsorted.and hnodup).imp ?_
    rintro a b ⟨hab, hne⟩ heq
    rcases (hitLE_iff a b).mp hab with hlt | ⟨-, hle⟩
    · exact absurd heq hlt.ne'
    · exact lt_of_le_of_ne hle hne
  · intro p hp
    exact mem_ranked_enum hp

/-! Tokenizer facts. -/

theorem modifyHead_id_fun (l : List (List Char)) :
    l.modifyHead (fun x => x) = l := by
  cases l <;> rfl

theorem reverse_isEmpty_false {acc : List Char} (hacc : ¬ acc.isEmpty = true) :
    acc.reverse.isEmpty = false := by
  rw [Bool.eq_false_iff]
  intro hrev
  rw [List.isEmpty_iff, List.reverse_eq_nil_iff] at hrev
  exact hacc (by simp [hrev])

theorem findRuns_eq (cs : List Char) : ∀ acc : List Char,
    findRuns cs acc =
      ((cs.splitOnP fun c => !isWordChar c).modifyHead (acc.reverse ++ ·)).filter
        (fun r => !r.isEmpty) := by
  induction cs with
  | nil =>
    intro acc
    rw [findRuns, List.splitOnP_nil]
    by_cases hacc : acc.isEmpty = true
    · obtain rfl : acc = [] := List.isEmpty_iff.mp hacc
      rfl
    · rw [if_neg hacc]
      simp [List.modifyHead, List.filter, reverse_isEmpty_false hacc]
  | cons c cs ih =>
    intro acc
    rw [findRuns]
    by_cases hw : isWordChar c = true
    · rw [if_pos hw, ih (c :: acc)]
      have hsplit : ((c :: cs).splitOnP fun d => !isWordChar d) =
          ((cs.splitOnP fun d => !isWordChar d).modifyHead (List.cons c)) := by
        rw [List.splitOnP_cons]
        simp [hw]
      rw [hsplit, List.modifyHead_modifyHead]
      have hfun : ((c :: acc).reverse ++ ·) = ((acc.reverse ++ ·) ∘ (List.cons c)) := by
        funext x
        simp
      rw [hfun]
    · have hsplit : ((c :: cs).splitOnP fun d => !isWordChar d) =
          [] :: (cs.splitOnP fun d => !isWordChar d) := by
        rw [List.splitOnP_cons]
        simp [hw]
      have hid : (List.reverse ([] : List Char) ++ ·) = (fun x : List Char => x) := by
        funext x
        simp
      have ih0 : findRuns cs [] =
          ((cs.splitOnP fun c => !isWordChar c)).filter (fun r => !r.isEmpty) := by
        rw [ih [], hid, modifyHead_id_fun]
      rw [if_neg hw, hsplit]
      by_cases hacc : acc.isEmpty = true
      · obtain rfl : acc = [] := List.isEmpty_iff.mp hacc
        rw [if_pos (show (List.isEmpty ([] : List Char)) = true from rfl), ih0]
        simp [List.modifyHead, List.filter]
      · rw [if_neg hacc, ih0]
        simp [List.modifyHead, List.filter, reverse_isEmpty_false hacc]

theorem tokenize_eq_spec (text : List Char) :
    _tokenize text = tokenizeSpec text := by
  unfold _tokenize tokenizeSpec
  rw [findRuns_eq]
  have : (List.reverse ([] : List Char) ++ ·) = id := by
    funext x
    simp
  rw [this, List.modifyHead_id]
  simp

theorem isPySpace_not_word {c : Char} (h : isPySpace c = true) :
    isWordChar c = false := by
  unfold isPySpace at h
  simp only [Bool.or_eq_true, beq_iff_eq] at h
  rcases h with ((((h | h) | h) | h) | h) | h <;> subst h <;> decide

theorem findRuns_sep (cs : List Char) (hcs : ∀ c ∈ cs, isWordChar c = false) :
    findRuns cs [] = [] := by
  induction cs with
  | nil => rfl
  | cons c cs ih =>
    rw [findRuns, hcs c (List.mem_cons_self c cs), if_neg (by simp),
      if_pos (by rfl)]
    exact ih fun d hd => hcs d (List.mem_cons_of_mem c hd)

/-- Claim C7: the tokenizer equals the spec side maximal run splitter
with lower casing (so tokens come in order, every non word character
separates, and no length filter is applied), whitespace only input
yields no tokens, and every token is nonempty (single characters are
kept, there being no minimum length).  Totality is by construction, the
model being a total Lean function translated from the source. -/
theorem c7_tokenize (text : List Char) :
    _tokenize text = tokenizeSpec text ∧
    ((∀ c ∈ text, isPySpace c = true) → _tokenize text = []) ∧
    (∀ t ∈ _tokenize text, t ≠ []) := by
  refine ⟨tokenize_eq_spec text, ?_, ?_⟩
  · intro hws
    unfold _tokenize
    rw [findRuns_sep text fun c hc => isPySpace_not_word (hws c hc)]
    rfl
  · intro t ht
    rw [tokenize_eq_spec] at ht
    unfold tokenizeSpec at ht
    obtain ⟨r, hr, rfl⟩ := List.mem_map.mp ht
    have hrne := (List.mem_filter.mp hr).2
    intro hmap
    rw [List.map_eq_nil_iff] at hmap
    subst hmap
    simp at hrne

/-- Witness for C7 on a whitespace only string and a mixed string. -/
theorem c7_tokenize_witness :
    _tokenize " \t ".toList = tokenizeSpec " \t ".toList ∧
    _tokenize " \t ".toList = [] ∧
    _tokenize "Ab-c 1".toList = tokenizeSpec "Ab-c 1".toList :=
  ⟨(c7_tokenize " \t ".toList).1,
   (c7_tokenize " \t ".toList).2.1 (by decide),
   (c7_tokenize "Ab-c 1".toList).1⟩

/-! Sync drift detector facts. -/

theorem load_ok_mem {sidecar repo_type : Option String} {t : String}
    (h : _load_repo_type sidecar repo_type = .ok t) : t ∈ REPO_TYPES := by
  unfold _load_repo_type at h
  by_cases h1 : pyTruthy repo_type = true
  · rw [if_pos h1] at h
    by_cases h2 : repo_type.getD "" ∈ REPO_TYPES
    · rw [if_pos h2] at h
      obtain rfl := Except.ok.inj h
      exact h2
    · rw [if_neg h2] at h
      exact Except.noConfusion h
  · rw [if_neg h1] at h
    cases sidecar with
    | none => exact Except.noConfusion h
    | some d =>
      rw [show _detect_type (some d) =
          (if d ∈ REPO_TYPES then Except.ok d
           else Except.error SyncErr.undetectableType) from rfl] at h
      by_cases hd : d ∈ REPO_TYPES
      · rw [if_pos hd] at h
        obtain rfl := Except.ok.inj h
        exact hd
      · rw [if_neg hd] at h
        exact Except.noConfusion h

theorem analyze_ok {tt : TemplateTree} {dirOk : Bool} {disk : List String}
    {sidecar rt : Option String} {r : SyncReport}
    (hr : analyze_sync tt dirOk disk sidecar rt = .ok r) :
    r.repo_type ∈ REPO_TYPES ∧
    r.missing = sortStr ((_expected_files tt r.repo_type).filter
      fun p => !(decide (p ∈ disk))) ∧
    r.unexpected = sortStr ((((_canonical_files_union tt).filter
      fun p => !(decide (p ∈ _expected_files tt r.repo_type))).filter
      fun p => decide (p ∈ disk))) := by
  unfold analyze_sync at hr
  cases dirOk with
  | false => exact Except.noConfusion hr
  | true =>
    rw [if_neg (by simp)] at hr
    cases hload : _load_repo_type sidecar rt with
    | error e =>
      rw [hload] at hr
      exact Except.noConfusion hr
    | ok resolved =>
      rw [hload] at hr
      obtain rfl := Except.ok.inj hr
      exact ⟨load_ok_mem hload, rfl, rfl⟩

theorem sortStr_sorted (l : List String) : (sortStr l).Sorted (· ≤ ·) :=
  List.sorted_insertionSort _ l

theorem mem_sortStr {p : String} {l : List String} : p ∈ sortStr l ↔ p ∈ l :=
  (List.perm_insertionSort _ l).mem_iff

theorem expected_subset_union {tt : TemplateTree} {t : String}
    (ht : t ∈ REPO_TYPES) {p : String} (hp : p ∈ _expected_files tt t) :
    p ∈ _canonical_files_union tt := by
  unfold _canonical_files_union
  rw [List.mem_dedup, List.mem_flatten]
  exact ⟨_expected_files tt t, List.mem_map.mpr ⟨t, ht, rfl⟩, hp⟩

/-- Claim C2: for an existing repository directory and a successfully
resolved type, missing is the sorted set of expected paths absent from
disk, unexpected is the sorted set of paths in the canonical union,
outside the expected set of the resolved type, and present on disk; a
path on disk outside every manifest appears in neither list. -/
theorem c2_sync_sets {tt : TemplateTree} {dirOk : Bool} {disk : List String}
    {sidecar rt : Option String} {r : SyncReport}
    (hr : analyze_sync tt dirOk disk sidecar rt = .ok r) :
    r.missing.Sorted (· ≤ ·) ∧ r.unexpected.Sorted (· ≤ ·) ∧
    (∀ p, p ∈ r.missing ↔ p ∈ _expected_files tt r.repo_type ∧ p ∉ disk) ∧
    (∀ p, p ∈ r.unexpected ↔
      p ∈ _canonical_files_union tt ∧ p ∉ _expected_files tt r.repo_type ∧
        p ∈ disk) ∧
    (∀ p, p ∈ disk → p ∉ _canonical_files_union tt →
      p ∉ r.missing ∧ p ∉ r.unexpected) := by
  obtain ⟨hmem, hmiss, hunex⟩ := analyze_ok hr
  have hmissing : ∀ p, p ∈ r.missing ↔
      p ∈ _expected_files tt r.repo_type ∧ p ∉ disk := by
    intro p
    rw [hmiss, mem_sortStr, List.mem_filter]
    simp
  have hunexpected : ∀ p, p ∈ r.unexpected ↔
      p ∈ _canonical_files_union tt ∧ p ∉ _expected_files tt r.repo_type ∧
        p ∈ disk := by
    intro p
    rw [hunex, mem_sortStr, List.mem_filter, List.mem_filter]
    simp [and_assoc]
  refine ⟨hmiss ▸ sortStr_sorted _, hunex ▸ sortStr_sorted _, hmissing,
    hunexpected, ?_⟩
  intro p hdisk hnotu
  refine ⟨fun hp => ?_, fun hp => ?_⟩
  · obtain ⟨hexp, -⟩ := (hmissing p).mp hp
    exact hnotu (expected_subset_union hmem hexp)
  · obtain ⟨hu, -, -⟩ := (hunexpected p).mp hp
    exact hnotu hu

/-- Witness for C2 on the concrete template tree tt0 and disk0. -/
theorem c2_sync_sets_witness :
    analyze_sync tt0 true disk0 none (some "agent") = .ok r0 ∧
    (r0.missing.Sorted (· ≤ ·) ∧ r0.unexpected.Sorted (· ≤ ·) ∧
    (∀ p, p ∈ r0.missing ↔ p ∈ _expected_files tt0 r0.repo_type ∧ p ∉ disk0) ∧
    (∀ p, p ∈ r0.unexpected ↔
      p ∈ _canonical_files_union tt0 ∧ p ∉ _expected_files tt0 r0.repo_type ∧
        p ∈ disk0) ∧
    (∀ p, p ∈ disk0 → p ∉ _canonical_files_union tt0 →
      p ∉ r0.missing ∧ p ∉ r0.unexpected)) :=
  ⟨rfl, @c2_sync_sets tt0 true disk0 none (some "agent") r0 rfl⟩

/-- Claim C9: missing and unexpected are disjoint in every report. -/
theorem c9_disjoint {tt : TemplateTree} {dirOk : Bool} {disk : List String}
    {sidecar rt : Option String} {r : SyncReport}
    (hr : analyze_sync tt dirOk disk sidecar rt = .ok r) :
    ∀ p, p ∈ r.missing → p ∉ r.unexpected := by
  obtain ⟨-, hmiss, hunex⟩ := analyze_ok hr
  intro p hp hq
  rw [hmiss, mem_sortStr, List.mem_filter] at hp
  rw [hunex, mem_sortStr, List.mem_filter] at hq
  have h1 := hp.2
  have h2 := hq.2
  simp at h1 h2
  exact h1 h2

/-- Witness for C9 on the concrete template tree tt0 and disk0. -/
theorem c9_disjoint_witness :
    analyze_sync tt0 true disk0 none (some "agent") = .ok r0 ∧
    ∀ p, p ∈ r0.missing → p ∉ r0.unexpected :=
  ⟨rfl, @c9_disjoint tt0 true disk0 none (some "agent") r0 rfl⟩

/-- Claim C8 as amended: a supplied nonempty type outside the
enumeration fails with the unsupported type error; with no type
supplied, an absent sidecar fails with the missing marker error and a
sidecar type outside the enumeration fails with the detection error; a
supplied valid type is used, ignoring the sidecar.  The claim said any
supplied type string; the counterexample shows the empty string instead
falls back to the sidecar, as claim C10 states. -/
theorem c8_type_resolution (tt : TemplateTree) (disk : List String)
    (sidecar : Option String) (t : String) :
    (t ≠ "" → t ∉ REPO_TYPES →
      analyze_sync tt true disk sidecar (some t) =
        .error (.unsupportedType t)) ∧
    (analyze_sync tt true disk none none = .error .missingMarker) ∧
    (∀ d, d ∉ REPO_TYPES →
      analyze_sync tt true disk (some d) none = .error .undetectableType) ∧
    (t ∈ REPO_TYPES →
      analyze_sync tt true disk sidecar (some t) =
        analyze_sync tt true disk none (some t) ∧
      ∃ r, analyze_sync tt true disk sidecar (some t) = .ok r ∧
        r.repo_type = t) := by
  refine ⟨?_, rfl, ?_, ?_⟩
  · intro hne hnotin
    have hload : _load_repo_type sidecar (some t) =
        .error (.unsupportedType t) := by
      unfold _load_repo_type
      rw [if_pos (by simp [pyTruthy, hne]), if_neg (by simpa using hnotin)]
      rfl
    unfold analyze_sync
    rw [if_neg (by simp), hload]
  · intro d hd
    have hload : _load_repo_type (some d) none = .error .undetectableType := by
      unfold _load_repo_type
      rw [if_neg (by simp [pyTruthy]),
        show _detect_type (some d) =
          (if d ∈ REPO_TYPES then Except.ok d
           else Except.error SyncErr.undetectableType) from rfl,
        if_neg hd]
    unfold analyze_sync
    rw [if_neg (by simp), hload]
  · intro ht
    have hne : t ≠ "" := by
      rintro rfl
      exact absurd ht (by decide)
    have hload : ∀ sc : Option String, _load_repo_type sc (some t) = .ok t := by
      intro sc
      unfold _load_repo_type
      rw [if_pos (by simp [pyTruthy, hne]), if_pos (by simpa using ht)]
      rfl
    constructor
    · unfold analyze_sync
      rw [hload sidecar, hload none]
    · refine ⟨⟨t, sortStr ((_expected_files tt t).filter
          fun p => !(decide (p ∈ disk))),
        sortStr ((((_canonical_files_union tt).filter
          fun p => !(decide (p ∈ _expected_files tt t))).filter
          fun p => decide (p ∈ disk)))⟩, ?_, rfl⟩
      unfold analyze_sync
      rw [if_neg (by simp), hload sidecar]

/-- Witness for C8 on the concrete template tree tt0. -/
theorem c8_type_resolution_witness :
    analyze_sync tt0 true disk0 (some "ml") (some "bogus") =
      .error (.unsupportedType "bogus") ∧
    ∃ r, analyze_sync tt0 true disk0 (some "ml") (some "agent") = .ok r ∧
      r.repo_type = "agent" :=
  ⟨(c8_type_resolution tt0 disk0 (some "ml") "bogus").1 (by decide) (by decide),
   ((c8_type_resolution tt0 disk0 (some "ml") "agent").2.2.2 (by decide)).2⟩

/-- Counterexample to claim C8 as stated: the empty string is a
supplied type string outside the enumeration, yet analyze_sync raises
the missing sidecar error rather than the unsupported type error. -/
theorem c8_counterexample :
    "" ∉ REPO_TYPES ∧
    analyze_sync tt0 true disk0 none (some "") = .error .missingMarker ∧
    SyncErr.missingMarker ≠ SyncErr.unsupportedType "" :=
  ⟨by decide, rfl, by decide⟩

/-- Claim C10: an empty string type behaves exactly as no type at all,
and with no sidecar the missing sidecar error results rather than the
unsupported type error. -/
theorem c10_empty_type (tt : TemplateTree) (disk : List String)
    (sidecar : Option String) :
    analyze_sync tt true disk sidecar (some "") =
      analyze_sync tt true disk sidecar none ∧
    analyze_sync tt true disk none (some "") = .error .missingMarker ∧
    Except.error (α := SyncReport) SyncErr.missingMarker ≠
      .error (.unsupportedType "") :=
  ⟨rfl, rfl, by simp⟩

/-- Witness for C5 on the concrete corpus files0. -/
theorem c5_ranking_witness :
    List.Chain' (fun a b : SearchHit => b.score ≤ a.score)
      (search_markdown q0 files0 10) ∧
    List.Pairwise (fun a b : ℕ × SearchHit => a.2.score = b.2.score → a.1 < b.1)
      (rankedHits q0 files0) ∧
    (∀ p ∈ rankedHits q0 files0, (searchHits q0 files0)[p.1]? = some p.2) ∧
    search_markdown q0 files0 10 =
      pySlice 10 ((rankedHits q0 files0).map Prod.snd) :=
  c5_ranking q0 files0 10

/-- Witness for C10 on the concrete template tree tt0. -/
theorem c10_empty_type_witness :
    analyze_sync tt0 true disk0 (some "ml") (some "") =
      analyze_sync tt0 true disk0 (some "ml") none ∧
    analyze_sync tt0 true disk0 none (some "") = .error .missingMarker ∧
    Except.error (α := SyncReport) SyncErr.missingMarker ≠
      .error (.unsupportedType "") :=
  c10_empty_type tt0 disk0 (some "ml")

end Repokit
